import Mathlib

/-!
Verification of the retrieval orchestrator in
`src/mcp-server/smart_retrieval_mcp.py` (class `SmartRetrievalMCP`).

The Python methods are embedded as pure Lean functions:

* the term-association table (a Python `dict` from query strings to lists
  of learned terms) is an association list `Table` whose lookup takes the
  first matching key, like a dict with unique keys;
* Python `str.split()` is `pySplit` (split on whitespace, drop empties);
* JSON-like nested values (episode `content`, the persisted document) are
  the inductive `JVal`;
* the external graphiti store is a record of functions returning
  `Except`, a raised exception being the `.error` case;
* methods that only log and swallow exceptions are total functions, and
  where a claim is about logging, the function also returns the log
  entries it would emit.
-/

namespace SmartRetrieval

/-- Loop of `pySplit` over the character list: `acc` holds the reversed
characters of the word being read. -/
def splitWsChars : List Char → List Char → List String
  | [], acc => if acc = [] then [] else [String.mk acc.reverse]
  | c :: cs, acc =>
    if c.isWhitespace then
      if acc = [] then splitWsChars cs []
      else String.mk acc.reverse :: splitWsChars cs []
    else splitWsChars cs (c :: acc)

/-- Python `str.split()`: split on whitespace runs, discarding empty
pieces (written over the character list so that the kernel can evaluate
it). -/
def pySplit (s : String) : List String :=
  splitWsChars s.data []

/-- Python `str.lower()`: lowercase every character (written over the
character list so that the kernel can evaluate it). -/
def pyLower (s : String) : String :=
  String.mk (s.data.map Char.toLower)

/-- The in-memory `self.term_associations` dict: query or word ↦ ordered
list of learned terms.  Lookup takes the first matching key. -/
abbrev Table := List (String × List String)

/-- Python `dict[key]` as an `Option`: value of the first matching key. -/
def Table.find : Table → String → Option (List String)
  | [], _ => none
  | p :: rest, k => if p.1 = k then some p.2 else find rest k

/-- Python `key in dict` membership test. -/
def Table.hasKey (t : Table) (k : String) : Bool :=
  (t.find k).isSome

/-- The dedup loop of `_expand_query`: keep a term unless its lowercasing
was already `seen`, recording lowercased forms in `seen` (the Python
`set`, modelled as the list of elements added so far). -/
def dedupCI : List String → List String → List String
  | [], _ => []
  | t :: ts, seen =>
    if pyLower t ∈ seen then dedupCI ts seen
    else t :: dedupCI ts (pyLower t :: seen)

/-- `SmartRetrievalMCP._expand_query`: seed with the query, extend with up
to 5 learned terms of the exact query and up to 3 of each word, dedup
case-insensitively, join with single spaces. -/
def expand_query (assoc : Table) (query : String) : String :=
  let expanded_terms := [query] ++
    (match assoc.find query with
     | some ts => ts.take 5
     | none => [])
  let expanded_terms := expanded_terms ++
    (pySplit query).flatMap (fun word =>
      match assoc.find word with
      | some ts => ts.take 3
      | none => [])
  String.intercalate " " (dedupCI expanded_terms [])

/-- Modelled from the spec, §4.1 steps 1–5, for comparison with
`expand_query`: seed the list with the original query; if the exact query
is a key append up to its first 5 learned terms; for each whitespace word
that is a key append up to its first 3; deduplicate case-insensitively
preserving first-seen order; join with single spaces. -/
def expand_spec (assoc : Table) (query : String) : String :=
  let step2 :=
    match assoc.find query with
    | some ts => ts.take 5
    | none => []
  let step3 := (pySplit query).flatMap (fun word =>
    match assoc.find word with
    | some ts => ts.take 3
    | none => [])
  let deduped := (query :: (step2 ++ step3)).foldl
    (fun acc t => if acc.any (fun u => pyLower u = pyLower t) then acc else acc ++ [t]) []
  String.intercalate " " deduped

/-- The terms `_expand_query` appends after the seed query: up to 5 for
the exact query, then up to 3 per word (the tail of `expanded_terms`). -/
def expandRest (assoc : Table) (query : String) : List String :=
  (match assoc.find query with
   | some ts => ts.take 5
   | none => []) ++
    (pySplit query).flatMap (fun word =>
      match assoc.find word with
      | some ts => ts.take 3
      | none => [])

/-- JSON-like value, modelling whatever Python object a parsed document or
an episode `content` field may hold. -/
inductive JVal where
  | str (s : String)
  | num (n : Int)
  | bool (b : Bool)
  | null
  | arr (elems : List JVal)
  | obj (fields : List (String × JVal))

/-- Python `dict.get(k, d)` on a JSON object's field list. -/
def jGetD (fields : List (String × JVal)) (k : String) (d : JVal) : JVal :=
  match fields.find? (fun p => p.1 = k) with
  | some p => p.2
  | none => d

/-- Value of a fact dict's `episodes` field: present and a list, present
but not a list, or absent (Python `fact.get('episodes', [])` plus the
`isinstance(episodes, list)` check). -/
inductive EpisodesField where
  | list (xs : List String)
  | nonList
  | absent
deriving DecidableEq

/-- A fact dict as built by `_search_facts` or handed to the orchestrator. -/
structure Fact where
  uuid : String
  fact : String
  source_node_uuid : String
  target_node_uuid : String
  episodes : EpisodesField
  created_at : Option String

/-- An episode dict as built by `_fetch_episodes`. -/
structure Episode where
  uuid : String
  name : String
  content : JVal
  group_id : String
  created_at : Option String
  source : String

/-- Loop body of `_extract_episode_uuids`: a fact whose `episodes` field
is absent defaults to `[]`, and one whose field is not a list fails the
`isinstance` check; both contribute nothing. -/
def extractStep (s : Finset String) (f : Fact) : Finset String :=
  match f.episodes with
  | .list xs => s ∪ xs.toFinset
  | .nonList => s
  | .absent => s

/-- `SmartRetrievalMCP._extract_episode_uuids`: the set of episode UUIDs
referenced by the facts (the Python `set`; the source returns `list(...)`
of it in unspecified order, so the collection is modelled as a
`Finset`). -/
def extract_episode_uuids (facts : List Fact) : Finset String :=
  facts.foldl extractStep ∅

/-- Tokens learned from one fact in `_learn_from_results`: whitespace
words of the statement text longer than 2 characters, lowercased. -/
def factTokens (f : Fact) : List String :=
  ((pySplit f.fact).filter (fun w => w.length > 2)).map pyLower

/-- Keyword terms learned from one episode in `_learn_from_results`:
when `content` is a dict whose `keywords` field is a dict, every string
entry of its `chinese`, `english`, `technical` sub-lists, lowercased;
any other shape contributes nothing. -/
def keywordTerms (e : Episode) : List String :=
  match e.content with
  | .obj fields =>
    match jGetD fields "keywords" (.obj []) with
    | .obj kw =>
      ["chinese", "english", "technical"].flatMap (fun key_type =>
        match jGetD kw key_type (.arr []) with
        | .arr terms =>
          terms.filterMap (fun t =>
            match t with
            | .str s => some (pyLower s)
            | _ => none)
        | _ => [])
    | _ => []
  | _ => []

/-- First-seen-order enumeration of a Python `set` built by successive
insertions: drop exact duplicates.  Set iteration order is unspecified in
the source; this fixes one concrete enumeration. -/
def dedupKeepFirst : List String → List String → List String
  | [], _ => []
  | t :: ts, seen =>
    if t ∈ seen then dedupKeepFirst ts seen
    else t :: dedupKeepFirst ts (t :: seen)

/-- The `learned_terms` candidate set of `_learn_from_results`: tokens of
the first 10 facts plus keyword terms of the first 5 episodes. -/
def learnedTerms (facts : List Fact) (episodes : List Episode) : List String :=
  dedupKeepFirst
    ((facts.take 10).flatMap factTokens ++ (episodes.take 5).flatMap keywordTerms)
    []

/-- The terms actually appended by `_learn_from_results`: candidates not
already in the query's list and not equal to the lowercased query,
truncated to 10 (`list(new_terms)[:10]`). -/
def newTerms (tab : Table) (query : String) (facts : List Fact)
    (episodes : List Episode) : List String :=
  let existing := (tab.find query).getD []
  ((learnedTerms facts episodes).filter
    (fun t => t ∉ existing ∧ t ≠ pyLower query)).take 10

/-- Dict update of `_learn_from_results`: create `query ↦ []` if the key
is absent (appending the new key at the end, as a Python dict does), then
extend its list with the new terms. -/
def Table.insertAppend (t : Table) (k : String) (new : List String) : Table :=
  match t with
  | [] => [(k, new)]
  | (k', v) :: rest =>
    if k' = k then (k', v ++ new) :: rest else (k', v) :: insertAppend rest k new

/-- The document `save_learning_data` serializes to
`search_learning.json`: the whole table under `term_associations` plus a
`last_updated` timestamp. -/
def encodeTable (t : Table) : JVal :=
  .obj (t.map (fun p => (p.1, .arr (p.2.map .str))))

/-- `SmartRetrievalMCP.save_learning_data`, up to JSON serialization: the
structured document written to disk. -/
def save_learning_data (t : Table) (now : String) : JVal :=
  .obj [("term_associations", encodeTable t), ("last_updated", .str now)]

/-- `SmartRetrievalMCP._learn_from_results`: returns the updated table
together with the document passed to `save_learning_data` (the save is
unconditional, so every call produces one). -/
def learn_from_results (tab : Table) (query : String) (facts : List Fact)
    (episodes : List Episode) (now : String) : Table × JVal :=
  let tab' := tab.insertAppend query (newTerms tab query facts episodes)
  (tab', save_learning_data tab' now)

/-- An `EntityEdge` returned by the store's search; `episodes` is `none`
when the attribute is missing (the `hasattr` check). -/
structure Edge where
  uuid : String
  fact : String
  source_node_uuid : String
  target_node_uuid : String
  episodes : Option (List String)
  created_at : Option String

/-- A raw episode object returned by `driver.get_episodes`; each `Option`
field is `none` when the attribute is missing (`hasattr` checks). -/
structure RawEpisode where
  uuid : Option String
  name : Option String
  content : Option JVal
  group_id : Option String
  created_at : Option String
  source : Option String

/-- A record returned by `driver.execute_query`; `none` models a missing
or null column (`record.get` with and without defaults). -/
structure Record where
  uuid : Option String
  name : Option String
  content : Option String
  group_id : Option String
  created_at : Option String
  valid_at : Option String
  source : Option String
  source_description : Option String
  entity_edges : Option (List String)

/-- The episode dict built by `get_episode_by_uuid` from a record. -/
structure EpisodeFull where
  uuid : Option String
  name : String
  content : String
  group_id : String
  created_at : Option String
  valid_at : Option String
  source : String
  source_description : String
  entity_edges : List String

/-- The `graphiti_client.driver`: its operations either return a value or
raise an exception (`Except.error`). -/
structure Driver where
  get_episodes : String → Except String (List RawEpisode)
  execute_query : String → Except String (List Record)

/-- The `graphiti_client`: edge search plus an optional driver (accessing
a missing driver raises, caught by the surrounding `try`). -/
structure Client where
  search : String → Nat → List String → Except String (List Edge)
  driver : Option Driver

/-- The fact dict `_search_facts` builds from one edge. -/
def edgeToFact (e : Edge) : Fact :=
  { uuid := e.uuid
    fact := e.fact
    source_node_uuid := e.source_node_uuid
    target_node_uuid := e.target_node_uuid
    episodes := .list (e.episodes.getD [])
    created_at := e.created_at }

/-- `SmartRetrievalMCP._search_facts`: empty without a client; on a raised
store error the exception is caught (and logged) and the result is empty;
otherwise the formatted edges. -/
def search_facts (client : Option Client) (query : String) (max_facts : Nat)
    (group_ids : List String) : List Fact :=
  match client with
  | none => []
  | some c =>
    match c.search query max_facts group_ids with
    | .error _ => []
    | .ok edges => edges.map edgeToFact

/-- The episode dict `_fetch_episodes` keeps for one raw episode: only
when it has a `uuid` attribute that is in the requested set, with missing
optional fields defaulted. -/
def rawToEpisode (uuids : List String) (r : RawEpisode) : Option Episode :=
  match r.uuid with
  | some u =>
    if u ∈ uuids then
      some
        { uuid := u
          name := r.name.getD ""
          content := r.content.getD (.str "")
          group_id := r.group_id.getD ""
          created_at := r.created_at
          source := r.source.getD "text" }
    else none
  | none => none

/-- The group loop of `_fetch_episodes`.  An exception from any
`get_episodes` call (or from a missing driver) aborts the whole `try`
block, so the episodes accumulated so far are returned; the `Bool`
records whether an exception was caught (and logged). -/
def fetchGroups (c : Client) (uuids : List String) :
    List String → List Episode → List Episode × Bool
  | [], acc => (acc, false)
  | g :: gs, acc =>
    match c.driver with
    | none => (acc, true)
    | some d =>
      match d.get_episodes g with
      | .error _ => (acc, true)
      | .ok raws => fetchGroups c uuids gs (acc ++ raws.filterMap (rawToEpisode uuids))

/-- `SmartRetrievalMCP._fetch_episodes`: short-circuits to empty without a
client or with no requested UUIDs, otherwise runs the group loop. -/
def fetch_episodes (client : Option Client) (uuids : List String)
    (group_ids : List String) : List Episode :=
  match client with
  | none => []
  | some c =>
    if uuids = [] then []
    else (fetchGroups c uuids group_ids []).1

/-- Whether the fetch of one group succeeds (driver present and
`get_episodes` does not raise). -/
def groupOk (c : Client) (g : String) : Bool :=
  match c.driver with
  | none => false
  | some d =>
    match d.get_episodes g with
    | .ok _ => true
    | .error _ => false

/-- The episodes one successfully fetched group contributes. -/
def groupEpisodes (c : Client) (uuids : List String) (g : String) : List Episode :=
  match c.driver with
  | none => []
  | some d =>
    match d.get_episodes g with
    | .ok raws => raws.filterMap (rawToEpisode uuids)
    | .error _ => []

/-- Severity of a log line emitted by `get_episode_by_uuid`. -/
inductive LogLevel where
  | error
  | debug
deriving DecidableEq

/-- The episode dict `get_episode_by_uuid` builds from the first record. -/
def recordToEpisodeFull (r : Record) : EpisodeFull :=
  { uuid := r.uuid
    name := r.name.getD ""
    content := r.content.getD ""
    group_id := r.group_id.getD ""
    created_at := r.created_at
    valid_at := r.valid_at
    source := r.source.getD "text"
    source_description := r.source_description.getD ""
    entity_edges := r.entity_edges.getD [] }

/-- `SmartRetrievalMCP.get_episode_by_uuid`: absent client or driver logs
at error severity and returns `none`; a raised query error is caught,
logged at error severity, and returns `none`; an empty record list logs
at debug severity and returns `none`; otherwise the first record is
mapped to the episode shape. -/
def get_episode_by_uuid (client : Option Client) (uuid : String) :
    Option EpisodeFull × List LogLevel :=
  match client with
  | none => (none, [.error])
  | some c =>
    match c.driver with
    | none => (none, [.error])
    | some d =>
      match d.execute_query uuid with
      | .error _ => (none, [.error])
      | .ok records =>
        match records with
        | [] => (none, [.debug])
        | r :: _ => (some (recordToEpisodeFull r), [])

/-- Read a list of parsed values as a list of strings; `none` when any
entry is not a string. -/
def decodeStrs : List JVal → Option (List String)
  | [] => some []
  | .str s :: rest => (decodeStrs rest).map (fun l => s :: l)
  | _ :: _ => none

/-- Read a parsed value as a list of strings; `none` on any other shape. -/
def decodeTerms : JVal → Option (List String)
  | .arr xs => decodeStrs xs
  | _ => none

/-- Read a parsed object's fields as a table. -/
def decodeFields : List (String × JVal) → Option Table
  | [] => some []
  | (k, v) :: rest =>
    match decodeTerms v with
    | some l => (decodeFields rest).map (fun t => (k, l) :: t)
    | none => none

/-- Re-type the parsed `term_associations` member as a `Table` (Python
assigns the parsed object directly; the table type makes the re-typing
explicit); `none` on any shape a save never writes. -/
def decodeTable : JVal → Option Table
  | .obj fields => decodeFields fields
  | _ => none

/-- State of the persisted `search_learning.json` file: missing, present
but unparseable, or parsed to a document. -/
abbrev FileState := Option (Except String JVal)

/-- `SmartRetrievalMCP.load_learning_data`, run at construction on a
fresh instance whose table starts `{}`: a missing file leaves the table
empty; a parse failure — or a parsed document that is not an object, on
which `.get` raises — is caught (the `Bool` records that the failure was
logged) and leaves the table empty; a parsed object yields its
`term_associations` member (`data.get('term_associations', {})`),
re-typed by `decodeTable` — a document written by `save_learning_data`
always decodes, as the round-trip theorem shows, so the `getD []`
fallback is unreachable on saved files. -/
def load_learning_data (file : FileState) : Table × Bool :=
  match file with
  | none => ([], false)
  | some (.error _) => ([], true)
  | some (.ok doc) =>
    match doc with
    | .obj fields => ((decodeTable (jGetD fields "term_associations" (.obj []))).getD [], false)
    | _ => ([], true)

/-- Client used in the episode fan-out scenarios: the first group fetch
succeeds with one matching raw episode, any other group fetch raises. -/
def errClient : Client :=
  { search := fun _ _ _ => .ok []
    driver := some
      { get_episodes := fun g =>
          if g = "g1" then
            .ok [{ uuid := some "e1", name := some "n", content := none,
                   group_id := some "g1", created_at := none, source := none }]
          else .error "connection lost"
        execute_query := fun _ => .error "unused" } }

/-- Driver whose point lookup finds no record. -/
def okDriver : Driver :=
  { get_episodes := fun _ => .ok []
    execute_query := fun _ => .ok [] }

/-- Client wrapping `okDriver`. -/
def okClient : Client :=
  { search := fun _ _ _ => .ok []
    driver := some okDriver }

/-! ## Helper lemmas -/

theorem intercalate_go_append (s : String) (l : List String) :
    ∀ acc, ∃ r, String.intercalate.go acc s l = acc ++ r := by
  induction l with
  | nil => exact fun acc => ⟨"", (String.append_empty acc).symm⟩
  | cons a as ih =>
    intro acc
    obtain ⟨r, hr⟩ := ih (acc ++ s ++ a)
    refine ⟨s ++ a ++ r, ?_⟩
    show String.intercalate.go (acc ++ s ++ a) s as = _
    rw [hr]
    simp [String.append_assoc]

theorem intercalate_cons_append (s a : String) (l : List String) :
    ∃ r, String.intercalate s (a :: l) = a ++ r :=
  intercalate_go_append s l a

theorem dedupCI_eq_foldl (ts : List String) :
    ∀ (acc seen : List String),
      (∀ s, s ∈ seen ↔ ∃ u ∈ acc, pyLower u = s) →
      acc ++ dedupCI ts seen
        = ts.foldl
            (fun acc t =>
              if acc.any (fun u => pyLower u = pyLower t) then acc else acc ++ [t])
            acc := by
  induction ts with
  | nil => intro acc seen _; simp [dedupCI]
  | cons t ts ih =>
    intro acc seen h
    by_cases hmem : pyLower t ∈ seen
    · have hany : acc.any (fun u => pyLower u = pyLower t) = true := by
        obtain ⟨u, hu, hlu⟩ := (h (pyLower t)).1 hmem
        simp only [List.any_eq_true, decide_eq_true_eq]
        exact ⟨u, hu, hlu⟩
      simp only [dedupCI, if_pos hmem, List.foldl_cons, hany, if_true]
      exact ih acc seen h
    · have hany : acc.any (fun u => pyLower u = pyLower t) = false := by
        simp only [List.any_eq_false, decide_eq_true_eq]
        intro u hu hlu
        exact hmem ((h (pyLower t)).2 ⟨u, hu, hlu⟩)
      have h' : ∀ s, s ∈ pyLower t :: seen ↔ ∃ u ∈ acc ++ [t], pyLower u = s := by
        intro s
        constructor
        · intro hs
          rcases List.mem_cons.1 hs with rfl | hs
          · exact ⟨t, List.mem_append.2 (Or.inr (List.mem_singleton.2 rfl)), rfl⟩
          · obtain ⟨u, hu, hlu⟩ := (h s).1 hs
            exact ⟨u, List.mem_append.2 (Or.inl hu), hlu⟩
        · rintro ⟨u, hu, rfl⟩
          rcases List.mem_append.1 hu with hu | hu
          · exact List.mem_cons.2 (Or.inr ((h (pyLower u)).2 ⟨u, hu, rfl⟩))
          · rcases List.mem_singleton.1 hu with rfl
            exact List.mem_cons.2 (Or.inl rfl)
      simp only [dedupCI, if_neg hmem, List.foldl_cons, hany, if_false, Bool.false_eq_true]
      rw [← List.singleton_append, ← List.append_assoc]
      exact ih (acc ++ [t]) (pyLower t :: seen) h'

theorem Table.find_eq_none {t : Table} {k : String} (h : t.hasKey k = false) :
    t.find k = none := by
  cases hf : t.find k with
  | none => rfl
  | some v => simp [Table.hasKey, hf] at h

theorem Table.find_insertAppend_self (t : Table) (k : String) (new : List String) :
    (t.insertAppend k new).find k = some (((t.find k).getD []) ++ new) := by
  induction t with
  | nil => simp [Table.insertAppend, Table.find]
  | cons p rest ih =>
    by_cases h : p.1 = k
    · simp [Table.insertAppend, Table.find, h]
    · simp [Table.insertAppend, Table.find, h, ih]

theorem Table.find_insertAppend_of_ne (t : Table) (k k' : String) (new : List String)
    (h : k' ≠ k) : (t.insertAppend k new).find k' = t.find k' := by
  induction t with
  | nil =>
    have h1 : ¬(k = k') := fun hk => h hk.symm
    simp [Table.insertAppend, Table.find, h1]
  | cons p rest ih =>
    obtain ⟨k0, v0⟩ := p
    by_cases hp : k0 = k
    · have h1 : ¬(k0 = k') := fun hk => h (hk ▸ hp)
      have h2 : ¬(k = k') := fun hk => h hk.symm
      simp [Table.insertAppend, Table.find, hp, h1, h2]
    · by_cases hq : k0 = k'
      · simp [Table.insertAppend, Table.find, hp, hq, h]
      · simp [Table.insertAppend, Table.find, hp, hq, ih]

theorem expand_query_eq (assoc : Table) (q : String) :
    expand_query assoc q
      = String.intercalate " " (q :: dedupCI (expandRest assoc q) [pyLower q]) := by
  show String.intercalate " " (dedupCI (q :: expandRest assoc q) []) = _
  simp [dedupCI]

theorem expand_spec_eq (assoc : Table) (q : String) :
    expand_spec assoc q
      = String.intercalate " "
          ((q :: expandRest assoc q).foldl
            (fun acc t =>
              if acc.any (fun u => pyLower u = pyLower t) then acc else acc ++ [t])
            []) := rfl

/-! ## Claim theorems -/

/-- C1: `_expand_query` follows the specified algorithm — the original
query, then up to the first 5 learned terms of the exact-query entry,
then up to the first 3 learned terms of each word of the query that is a
table key (word order, table order), deduplicated case-insensitively
preserving first-seen order and joined with single spaces (stated as
equality with `expand_spec`, the algorithm transcribed from the spec);
in particular the expanded string always begins with the original
query. -/
theorem expand_query_follows_spec (assoc : Table) (q : String) (_hq : q ≠ "") :
    expand_query assoc q = expand_spec assoc q ∧
    ∃ r, expand_query assoc q = q ++ r := by
  constructor
  · rw [expand_spec_eq]
    have h0 : ∀ s : String, s ∈ ([] : List String) ↔ ∃ u ∈ ([] : List String), pyLower u = s := by
      simp
    have h1 := dedupCI_eq_foldl (q :: expandRest assoc q) [] [] h0
    rw [List.nil_append] at h1
    rw [← h1, expand_query_eq]
    congr 1
  · rw [expand_query_eq]
    exact intercalate_cons_append " " q _

/-- Witness for C1 at a concrete table and query. -/
theorem expand_query_follows_spec_witness :
    (expand_query [("shift", ["swap"])] "volunteer shift"
        = expand_spec [("shift", ["swap"])] "volunteer shift") ∧
    ∃ r, expand_query [("shift", ["swap"])] "volunteer shift" = "volunteer shift" ++ r :=
  expand_query_follows_spec [("shift", ["swap"])] "volunteer shift" (by decide)

theorem mem_foldl_extractStep (facts : List Fact) :
    ∀ (s : Finset String) (x : String),
      x ∈ facts.foldl extractStep s
        ↔ x ∈ s ∨ ∃ f ∈ facts, ∃ xs, f.episodes = EpisodesField.list xs ∧ x ∈ xs := by
  induction facts with
  | nil => intro s x; simp
  | cons f fs ih =>
    intro s x
    rw [List.foldl_cons, ih]
    cases hf : f.episodes with
    | list xs =>
      simp only [extractStep, hf, List.mem_cons, Finset.mem_union, List.mem_toFinset]
      constructor
      · rintro ((hx | hx) | ⟨g, hg, xs', h1, h2⟩)
        · exact Or.inl hx
        · exact Or.inr ⟨f, Or.inl rfl, xs, hf, hx⟩
        · exact Or.inr ⟨g, Or.inr hg, xs', h1, h2⟩
      · rintro (hx | ⟨g, hg, xs', h1, h2⟩)
        · exact Or.inl (Or.inl hx)
        · rcases hg with rfl | hg
          · rw [hf] at h1
            cases h1
            exact Or.inl (Or.inr h2)
          · exact Or.inr ⟨g, hg, xs', h1, h2⟩
    | nonList =>
      simp only [extractStep, hf, List.mem_cons]
      constructor
      · rintro (hx | ⟨g, hg, xs', h1, h2⟩)
        · exact Or.inl hx
        · exact Or.inr ⟨g, Or.inr hg, xs', h1, h2⟩
      · rintro (hx | ⟨g, hg, xs', h1, h2⟩)
        · exact Or.inl hx
        · rcases hg with rfl | hg
          · rw [hf] at h1
            exact EpisodesField.noConfusion h1
          · exact Or.inr ⟨g, hg, xs', h1, h2⟩
    | absent =>
      simp only [extractStep, hf, List.mem_cons]
      constructor
      · rintro (hx | ⟨g, hg, xs', h1, h2⟩)
        · exact Or.inl hx
        · exact Or.inr ⟨g, Or.inr hg, xs', h1, h2⟩
      · rintro (hx | ⟨g, hg, xs', h1, h2⟩)
        · exact Or.inl hx
        · rcases hg with rfl | hg
          · rw [hf] at h1
            exact EpisodesField.noConfusion h1
          · exact Or.inr ⟨g, hg, xs', h1, h2⟩

/-- C2: `_extract_episode_uuids` computes a duplicate-free union — an id
is in the returned set exactly when some fact's episode list (when that
field is present and a list) contains it; a fact lacking the list, or
whose field is not a list, contributes nothing.  Duplicate-freeness is
the `Finset` type of the result. -/
theorem extract_episode_uuids_is_union (facts : List Fact) (x : String) :
    x ∈ extract_episode_uuids facts
      ↔ ∃ f ∈ facts, ∃ xs, f.episodes = EpisodesField.list xs ∧ x ∈ xs := by
  rw [extract_episode_uuids, mem_foldl_extractStep]
  simp

/-- C5 counterexample: `"volunteer shift"` is not a key of the table
`[("shift", ["swap"])]`, yet expansion does not return it unchanged —
the word `"shift"` is a key, so the result is
`"volunteer shift swap"`. -/
theorem expand_query_nonkey_not_id :
    Table.hasKey [("shift", ["swap"])] "volunteer shift" = false ∧
    expand_query [("shift", ["swap"])] "volunteer shift" ≠ "volunteer shift" := by
  constructor
  · rfl
  · decide

/-- C5 (amended): expansion returns the query unchanged when neither the
query itself nor any of its whitespace words is a key of the
term-association table. -/
theorem expand_query_unlearned_id (assoc : Table) (q : String)
    (h1 : assoc.hasKey q = false)
    (h2 : ∀ w ∈ pySplit q, assoc.hasKey w = false) :
    expand_query assoc q = q := by
  have hfq : assoc.find q = none := Table.find_eq_none h1
  have hB : ∀ ws : List String, (∀ w ∈ ws, assoc.hasKey w = false) →
      ws.flatMap (fun word =>
        match assoc.find word with
        | some ts => ts.take 3
        | none => []) = [] := by
    intro ws
    induction ws with
    | nil => intro _; rfl
    | cons w ws ih =>
      intro hws
      have hw := Table.find_eq_none (hws w (List.mem_cons_self w ws))
      simp [hw, ih (fun u hu => hws u (List.mem_cons_of_mem w hu))]
  have hrest : expandRest assoc q = [] := by
    simp [expandRest, hfq, hB (pySplit q) h2]
  rw [expand_query_eq, hrest]
  rfl

/-- Witness for C5's amended theorem at a concrete table and query. -/
theorem expand_query_unlearned_id_witness :
    expand_query [("other", ["x"])] "volunteer shift" = "volunteer shift" :=
  expand_query_unlearned_id [("other", ["x"])] "volunteer shift" (by decide) (by decide)

/-- C3: a learning call extends the query's association list in place —
the list after the call is the list before the call followed by at most
10 appended terms, none of which was already present and none equal to
the lowercased query, and every other key's entry is untouched. -/
theorem learn_from_results_extends (tab : Table) (q : String) (facts : List Fact)
    (episodes : List Episode) (now : String) :
    ∃ appended : List String,
      (learn_from_results tab q facts episodes now).1.find q
        = some (((tab.find q).getD []) ++ appended) ∧
      appended.length ≤ 10 ∧
      (∀ t ∈ appended, t ∉ (tab.find q).getD [] ∧ t ≠ pyLower q) ∧
      (∀ k, k ≠ q → (learn_from_results tab q facts episodes now).1.find k = tab.find k) := by
  refine ⟨newTerms tab q facts episodes, ?_, ?_, ?_, ?_⟩
  · exact Table.find_insertAppend_self tab q _
  · exact List.length_take_le 10 _
  · intro t ht
    have h1 := List.mem_of_mem_take ht
    have h2 := List.of_mem_filter h1
    simpa using h2
  · intro k hk
    exact Table.find_insertAppend_of_ne tab q k _ hk

/-- Witness for C3 at a concrete table, query and result set. -/
theorem learn_from_results_extends_witness :
    ∃ appended : List String,
      (learn_from_results [("a", ["x"])] "q" [] [] "t").1.find "q"
        = some (((Table.find [("a", ["x"])] "q").getD []) ++ appended) ∧
      appended.length ≤ 10 ∧
      (∀ t ∈ appended, t ∉ (Table.find [("a", ["x"])] "q").getD [] ∧ t ≠ pyLower "q") ∧
      (∀ k, k ≠ "q" →
        (learn_from_results [("a", ["x"])] "q" [] [] "t").1.find k
          = Table.find [("a", ["x"])] k) :=
  learn_from_results_extends [("a", ["x"])] "q" [] [] "t"

/-- C10: every learning call registers its query as a key of the table
(mapped to at least an empty list, even with no facts, episodes or new
terms) and passes the whole updated table to `save_learning_data`. -/
theorem learn_from_results_registers_and_saves (tab : Table) (q : String)
    (facts : List Fact) (episodes : List Episode) (now : String) :
    (∃ l, (learn_from_results tab q facts episodes now).1.find q = some l) ∧
    (learn_from_results tab q facts episodes now).2
      = save_learning_data (learn_from_results tab q facts episodes now).1 now :=
  ⟨⟨_, Table.find_insertAppend_self tab q _⟩, rfl⟩

theorem rawToEpisode_nil_uuids (r : RawEpisode) : rawToEpisode [] r = none := by
  cases hr : r.uuid <;> simp [rawToEpisode, hr]

theorem fetchGroups_fst_eq (c : Client) (uuids : List String) :
    ∀ (gs : List String) (acc : List Episode),
      (fetchGroups c uuids gs acc).1
        = acc ++ (gs.takeWhile (groupOk c)).flatMap (groupEpisodes c uuids) := by
  intro gs
  induction gs with
  | nil => intro acc; simp [fetchGroups]
  | cons g gs ih =>
    intro acc
    cases hd : c.driver with
    | none => simp [fetchGroups, hd, groupOk, List.takeWhile_cons]
    | some d =>
      cases he : d.get_episodes g with
      | error e => simp [fetchGroups, hd, he, groupOk, List.takeWhile_cons]
      | ok raws =>
        simp [fetchGroups, hd, he, groupOk, groupEpisodes, List.takeWhile_cons, ih]

/-- C4 counterexample: with `errClient` the fetch of group `"g1"`
succeeds with one matching episode and the fetch of `"g2"` raises; the
raised error is caught (second component `true`), yet the result is the
episode from `"g1"`, not the empty sequence the claim requires. -/
theorem fetch_episodes_error_not_empty :
    (fetchGroups errClient ["e1"] ["g1", "g2"] []).2 = true ∧
    fetch_episodes (some errClient) ["e1"] ["g1", "g2"] ≠ [] := by
  refine ⟨rfl, fun h => ?_⟩
  have h1 : (fetch_episodes (some errClient) ["e1"] ["g1", "g2"]).length = 1 := rfl
  rw [h] at h1
  simp at h1

/-- C4 (amended): a store error during the episode fan-out is caught and
never propagated, and the call returns exactly the episodes collected
from the maximal error-free group sequence before the failure — an empty
sequence when the very first group's fetch fails. -/
theorem fetch_episodes_error_free_groups (c : Client) (uuids : List String)
    (gs : List String) :
    fetch_episodes (some c) uuids gs
      = (gs.takeWhile (groupOk c)).flatMap (groupEpisodes c uuids) := by
  by_cases hu : uuids = []
  · subst hu
    have h1 : ∀ g, groupEpisodes c [] g = [] := by
      intro g
      cases hd : c.driver with
      | none => simp [groupEpisodes, hd]
      | some d =>
        cases he : d.get_episodes g with
        | error e => simp [groupEpisodes, hd, he]
        | ok raws => simp [groupEpisodes, hd, he, rawToEpisode_nil_uuids]
    simp [fetch_episodes, h1]
  · simp [fetch_episodes, hu, fetchGroups_fst_eq]

/-- C7: fact retrieval is best-effort — with no client configured, or
when the store search raises, the result is the empty list (the function
is total, so the failure never propagates to the caller). -/
theorem search_facts_best_effort (client : Option Client) (q : String) (n : Nat)
    (gs : List String)
    (h : client = none ∨ ∃ c err, client = some c ∧ c.search q n gs = .error err) :
    search_facts client q n gs = [] := by
  rcases h with rfl | ⟨c, err, rfl, hc⟩
  · rfl
  · simp [search_facts, hc]

/-- Witness for C7: no client configured, default limit and groups. -/
theorem search_facts_best_effort_witness :
    search_facts none "volunteer shift" 20
      ["volunteer-job-procedures", "volunteer-job-preferences", "volunteer-job"] = [] :=
  search_facts_best_effort none "volunteer shift" 20
    ["volunteer-job-procedures", "volunteer-job-preferences", "volunteer-job"] (Or.inl rfl)

/-- C8: a point lookup whose query matches no record returns absent (with
a debug log, not an error), and a missing client or driver logs at error
severity and still returns absent; the function is total, so no exception
escapes. -/
theorem get_episode_by_uuid_absent (client : Option Client) (u : String) :
    (∀ c d, client = some c → c.driver = some d → d.execute_query u = .ok [] →
        get_episode_by_uuid client u = (none, [LogLevel.debug])) ∧
    ((client = none ∨ ∃ c, client = some c ∧ c.driver = none) →
        get_episode_by_uuid client u = (none, [LogLevel.error])) := by
  constructor
  · rintro c d rfl hd hq
    simp [get_episode_by_uuid, hd, hq]
  · rintro (rfl | ⟨c, rfl, hd⟩)
    · rfl
    · simp [get_episode_by_uuid, hd]

/-- Witness for C8: a lookup matching no record, and a lookup without a
client. -/
theorem get_episode_by_uuid_absent_witness :
    get_episode_by_uuid (some okClient) "missing" = (none, [LogLevel.debug]) ∧
    get_episode_by_uuid none "missing" = (none, [LogLevel.error]) :=
  ⟨(get_episode_by_uuid_absent (some okClient) "missing").1 okClient okDriver rfl rfl rfl,
   (get_episode_by_uuid_absent none "missing").2 (Or.inl rfl)⟩

theorem decodeStrs_map_str (l : List String) : decodeStrs (l.map JVal.str) = some l := by
  induction l with
  | nil => rfl
  | cons s rest ih => simp [decodeStrs, ih]

theorem decodeFields_encodeTable (t : Table) :
    decodeFields (t.map (fun p => (p.1, JVal.arr (p.2.map JVal.str)))) = some t := by
  induction t with
  | nil => rfl
  | cons p rest ih => simp [decodeFields, decodeTerms, decodeStrs_map_str, ih]

/-- C6: persistence round-trips — loading the document written by a save
into a fresh instance reproduces the saved query-to-term-list mapping
exactly. -/
theorem save_load_roundtrip (t : Table) (now : String) :
    (load_learning_data (some (.ok (save_learning_data t now)))).1 = t := by
  have h1 : load_learning_data (some (.ok (save_learning_data t now)))
      = ((decodeTable (encodeTable t)).getD [], false) := rfl
  rw [h1]
  simp [decodeTable, encodeTable, decodeFields_encodeTable]

/-- C9: loading a corrupted (unparseable) persisted file catches and logs
the failure and leaves the association table empty; the function is
total, so the constructor never crashes. -/
theorem load_corrupted_starts_empty (e : String) :
    load_learning_data (some (.error e)) = ([], true) := rfl

end SmartRetrieval
